import Mathlib

/-!
Verification of the `comparator` package (`comparator.go`).

The package fetches two HTTP resources and reports their differences as a
flat list of `Diff` fragments.  The pure functions of `comparator.go`
(`Compare`'s branching, `compareJSONs`, `compareHTMLs`, `compareStrings`,
`getDiffsFromStrings`, `trimErrorHost`) are translated directly.  The
external collaborators (the HTTP layer, the `diffmatchpatch` text differ,
the `gojsondiff` structural differ and its ascii formatter, and the
`goquery` HTML extractor) are not part of the repository; they are
modelled from the specification's description of them, as noted on each
such definition.

Conventions of the embedding:
* fetch outcomes (`http.Get`) are inputs: `Except String Response`,
  `.error e` being a failed fetch with error message `e`;
* a response body is a single-use stream whose full read either yields the
  byte content as a `String` or fails: `Except String String`;
* a Go runtime panic is modelled as `none` in an `Option` result;
* the Go pair `([]Diff, error)` with its "exactly one of the two is set"
  usage is modelled as `Except String (List Diff)`.
-/

namespace Comparator

/-- Go `type DiffType int8`.  Only the values `-1` and `1` are ever used,
so plain `Int` is a faithful carrier (no overflow is reachable). -/
abbrev DiffType := Int

/-- Go constant `Delete DiffType = -1`. -/
def Delete : DiffType := -1

/-- Go constant `Insert DiffType = 1`. -/
def Insert : DiffType := 1

/-- Go `type Diff struct { Text string; Type DiffType }`.  The field
`Type` is renamed `Type'` because `Type` is reserved in Lean. -/
structure Diff where
  Text : String
  Type' : DiffType
deriving DecidableEq, Repr

/-! ### Text Diff Engine (modelled from the spec)

Modelled from the spec: the `diffmatchpatch` library used by
`compareStrings` is external to the repository.  Per the spec it computes
"a standard longest-common-subsequence-style edit script between the two
strings", then "a semantic cleanup pass that merges trivially-adjacent
edits"; the model computes a minimal character-level edit script
(deletions emitted before insertions at each divergence point, the
library's convention) grouped into maximal same-operation runs. -/

/-- Operation tag of one element of the external differ's edit script
(`diffmatchpatch.DiffDelete` / `DiffInsert` / `DiffEqual`). -/
inductive Dop where
  | del : Dop
  | ins : Dop
  | eq : Dop
deriving DecidableEq, Repr

/-- Whether an edit-script entry is an actual edit (not an equality). -/
def isEdit : Dop → Bool
  | .eq => false
  | _ => true

/-- Number of actual edits in an edit script. -/
def editCost (ds : List (Dop × Char)) : Nat :=
  (ds.filter fun pr => isEdit pr.1).length

/-- Modelled from the spec: minimal LCS-style edit script between two
character lists.  The `fuel` argument only drives the recursion; one cons
from each side is consumed per step, so `xs.length + ys.length` fuel is
always enough. -/
def lcsDiff : Nat → List Char → List Char → List (Dop × Char)
  | _, [], ys => ys.map fun y => (Dop.ins, y)
  | _, xs, [] => xs.map fun x => (Dop.del, x)
  | 0, _ :: _, _ :: _ => []
  | fuel + 1, x :: xs, y :: ys =>
    if x = y then (Dop.eq, x) :: lcsDiff fuel xs ys
    else
      let delPath := (Dop.del, x) :: lcsDiff fuel xs (y :: ys)
      let insPath := (Dop.ins, y) :: lcsDiff fuel (x :: xs) ys
      if editCost delPath ≤ editCost insPath then delPath else insPath

/-- Group a character-level edit script into maximal runs with equal
operation, each run carrying its concatenated text. -/
def toRuns : List (Dop × Char) → List (Dop × String)
  | [] => []
  | (op, c) :: rest =>
    match toRuns rest with
    | (op', s) :: rs =>
      if op = op' then (op, String.mk (c :: s.data)) :: rs
      else (op, String.mk [c]) :: (op', s) :: rs
    | [] => [(op, String.mk [c])]

/-- Modelled from the spec: `textDiffer.DiffMain(a, b, true)` computes the
edit script between `a` and `b`, as a run-grouped fragment list. -/
def diffMain (a b : String) : List (Dop × String) :=
  toRuns (lcsDiff (a.data.length + b.data.length) a.data b.data)

/-- Modelled from the spec: `textDiffer.DiffCleanupSemantic` "merges
trivially-adjacent edits"; the model merges adjacent fragments that carry
the same operation (it is the identity on already-grouped scripts). -/
def diffCleanupSemantic : List (Dop × String) → List (Dop × String)
  | [] => []
  | (op, s) :: rest =>
    match diffCleanupSemantic rest with
    | (op', t) :: rs =>
      if op = op' then (op, s ++ t) :: rs
      else (op, s) :: (op', t) :: rs
    | [] => [(op, s)]

/-- Go `compareStrings`: run the text differ, apply the semantic cleanup,
then keep insertions and deletions (in order), dropping equal fragments. -/
def compareStrings (aString bString : String) : List Diff :=
  (diffCleanupSemantic (diffMain aString bString)).filterMap fun pr =>
    match pr.1 with
    | Dop.ins => some ⟨pr.2, Insert⟩
    | Dop.del => some ⟨pr.2, Delete⟩
    | Dop.eq => none

/-! ### Error trimming (`trimErrorHost`, translated from src) -/

/-- Index of the last occurrence of `c` in `cs` (Go `strings.LastIndex`
returns `-1` when absent; the model returns `none` in that case). -/
def lastIdx (cs : List Char) (c : Char) : Option Nat :=
  match cs with
  | [] => none
  | x :: xs =>
    match lastIdx xs c with
    | some i => some (i + 1)
    | none => if x = c then some 0 else none

/-- Go `trimErrorHost`: `errText[strings.LastIndex(errText, ":"):len(errText)]`.
When no `':'` occurs, `strings.LastIndex` is `-1` and the Go slice
expression `errText[-1:]` panics at runtime; the panic is modelled as
`none`. -/
def trimErrorHost (errText : String) : Option String :=
  match lastIdx errText.data ':' with
  | some i => some (String.mk (errText.data.drop i))
  | none => none

/-! ### Line parsing (`getDiffsFromStrings`, translated from src) -/

/-- Go `strings.HasPrefix` on character lists. -/
def prefixOfAux : List Char → List Char → Bool
  | [], _ => true
  | _ :: _, [] => false
  | p :: ps, c :: cs => (p == c) && prefixOfAux ps cs

/-- Go `strings.HasPrefix(s, pre)`. -/
def goHasPrefix (s pre : String) : Bool :=
  prefixOfAux pre.data s.data

/-- Go `strings.Replace(s, old, new, 1)` on character lists: replace the
first occurrence of `old` (scanning left to right) by `new`. -/
def replaceFirstList (old new : List Char) : List Char → List Char
  | [] => if prefixOfAux old [] then new else []
  | c :: rest =>
    if prefixOfAux old (c :: rest) then new ++ (c :: rest).drop old.length
    else c :: replaceFirstList old new rest

/-- Go `strings.Replace(s, old, new, 1)`. -/
def replaceFirst (s old new : String) : String :=
  String.mk (replaceFirstList old.data new.data s.data)

/-- Go `getDiffsFromStrings`: keep the lines with a `+` or `-` prefix, in
order; strip the prefix via `strings.Replace(line, pre, "", 1)`; tag `+`
lines `Insert` and `-` lines `Delete`. -/
def getDiffsFromStrings (lines : List String) : List Diff :=
  match lines with
  | [] => []
  | line :: rest =>
    if goHasPrefix line "+" then
      ⟨replaceFirst line "+" "", Insert⟩ :: getDiffsFromStrings rest
    else if goHasPrefix line "-" then
      ⟨replaceFirst line "-" "", Delete⟩ :: getDiffsFromStrings rest
    else
      getDiffsFromStrings rest

/-! ### Structural Diff Engine (modelled from the spec)

Modelled from the spec: the `gojsondiff` differ and its ascii formatter
used by `compareJSONs` are external to the repository.  Per the spec, a
JSON document is "a closed tagged-variant tree type (Null | Bool | Number
| String | Array(seq) | Object(ordered map with unique keys))"; the
structural diff is computed "against the shape of document A" and rendered
"as a sequence of text lines, each prefixed with `+` (present only in B /
added), `-` (present only in A / removed), or no prefix (unchanged context
line)", in "a depth-first, key-order traversal of document A's shape". -/

/-- JSON value tree.  Numbers carry their source literal (the differ never
computes with them, it only compares and prints them). -/
inductive Json where
  | null : Json
  | bool (b : Bool) : Json
  | num (lit : String) : Json
  | str (s : String) : Json
  | arr (xs : List Json) : Json
  | obj (kvs : List (String × Json)) : Json
deriving Repr

/-- First binding of key `k` in an association list. -/
def lookupKey {α : Type} (k : String) : List (String × α) → Option α
  | [] => none
  | (k', v) :: rest => if k' = k then some v else lookupKey k rest

/-- Whether every key bound in `ys` is also bound in `xs`. -/
def keysSub {α : Type} (ys xs : List (String × α)) : Bool :=
  ys.all fun kv => (lookupKey kv.1 xs).isSome

mutual

/-- Modelled from the spec: equality of two JSON documents as the differ
sees them — objects are compared as key-value maps (every entry of each
side must be matched by key on the other side), arrays pointwise. -/
def structEq : Json → Json → Bool
  | .null, .null => true
  | .bool a, .bool b => a = b
  | .num a, .num b => a = b
  | .str a, .str b => a = b
  | .arr xs, .arr ys => structEqArr xs ys
  | .obj xs, .obj ys => structEqObj xs ys && keysSub ys xs
  | _, _ => false

/-- Pointwise `structEq` on array elements. -/
def structEqArr : List Json → List Json → Bool
  | [], [] => true
  | x :: xs, y :: ys => structEq x y && structEqArr xs ys
  | _, _ => false

/-- Each entry of the left object matches, by key, an equal value on the
right. -/
def structEqObj : List (String × Json) → List (String × Json) → Bool
  | [], _ => true
  | (k, v) :: xs, ys =>
    (match lookupKey k ys with
     | some w => structEq v w
     | none => false) && structEqObj xs ys

end

/-- No key is bound twice in an object entry list. -/
def nodupKeys : List (String × Json) → Bool
  | [] => true
  | (k, _) :: rest => (lookupKey k rest).isNone && nodupKeys rest

mutual

/-- Validity of a JSON value: object keys are unique at every level (the
spec's "Object(ordered map with unique keys)"). -/
def wellFormed : Json → Bool
  | .null => true
  | .bool _ => true
  | .num _ => true
  | .str _ => true
  | .arr xs => wellFormedArr xs
  | .obj kvs => nodupKeys kvs && wellFormedObj kvs

/-- `wellFormed` on every array element. -/
def wellFormedArr : List Json → Bool
  | [] => true
  | x :: xs => wellFormed x && wellFormedArr xs

/-- `wellFormed` on every object value. -/
def wellFormedObj : List (String × Json) → Bool
  | [] => true
  | (_, v) :: kvs => wellFormed v && wellFormedObj kvs

end

mutual

/-- Single-line serialization of a JSON value, used by the rendered diff
lines. -/
def serJson : Json → String
  | .null => "null"
  | .bool true => "true"
  | .bool false => "false"
  | .num lit => lit
  | .str s => "\"" ++ s ++ "\""
  | .arr [] => "[]"
  | .arr (x :: xs) => "[" ++ serJson x ++ serArr xs ++ "]"
  | .obj [] => "\x7b\x7d"
  | .obj ((k, v) :: kvs) => "\x7b\"" ++ k ++ "\":" ++ serJson v ++ serObj kvs ++ "\x7d"

/-- Comma-prefixed serialization of the remaining array elements. -/
def serArr : List Json → String
  | [] => ""
  | x :: xs => "," ++ serJson x ++ serArr xs

/-- Comma-prefixed serialization of the remaining object entries. -/
def serObj : List (String × Json) → String
  | [] => ""
  | (k, v) :: kvs => ",\"" ++ k ++ "\":" ++ serJson v ++ serObj kvs

end

/-- Rendered lines for the object keys present only on the `B` side, in
`B`'s key order (the spec's "added keys"). -/
def addedKeys (ys xs : List (String × Json)) : List String :=
  ys.filterMap fun kw =>
    if (lookupKey kw.1 xs).isSome then none
    else some ("+" ++ ("\"" ++ kw.1 ++ "\": " ++ serJson kw.2))

mutual

/-- Modelled from the spec: the rendered structural diff of two JSON
documents, as its list of text lines.  Subtrees equal in the differ's
map-like sense (`structEq`) render as one unprefixed context line; a changed value renders its `A` form with `-`
and its `B` form with `+`; object entries are walked in `A`'s key order
with keys matched on the `B` side, then `B`-only keys are rendered as
added; arrays are walked pointwise with surplus elements removed/added. -/
def diffLines (a b : Json) : List String :=
  if structEq a b then [" " ++ serJson a]
  else
    match a, b with
    | .obj xs, .obj ys => diffObj xs ys ++ addedKeys ys xs
    | .arr xs, .arr ys => diffArr xs ys
    | a', b' => ["-" ++ serJson a', "+" ++ serJson b']

/-- Rendered lines for the entries of object `xs` against object `ys`. -/
def diffObj : List (String × Json) → List (String × Json) → List String
  | [], _ => []
  | (k, v) :: xs, ys =>
    (match lookupKey k ys with
     | some w => diffLines v w
     | none => ["-" ++ ("\"" ++ k ++ "\": " ++ serJson v)]) ++ diffObj xs ys

/-- Rendered lines for array elements, pointwise. -/
def diffArr : List Json → List Json → List String
  | xs, [] => xs.map fun x => "-" ++ serJson x
  | [], ys => ys.map fun y => "+" ++ serJson y
  | x :: xs, y :: ys => diffLines x y ++ diffArr xs ys

end

/-! ### JSON parsing (modelled from the spec)

Modelled from the spec: `jsonDiffer.Compare(aBody, bBody)` "parse[s] both
bodies as JSON values (objects/arrays/scalars)" and "malformed JSON on
either side ... surfaces as an Error".  The model is a recursive-descent
parser producing the `Json` tree; string escapes are not interpreted and
numbers are kept as literals, which the differ only ever compares and
prints. -/

/-- Opening brace character (written via its code point). -/
def lbrace : Char := Char.ofNat 123

/-- Closing brace character (written via its code point). -/
def rbrace : Char := Char.ofNat 125

/-- JSON insignificant whitespace. -/
def isWs (c : Char) : Bool :=
  c == ' ' || c == '\t' || c == '\n' || c == '\r'

/-- Drop leading whitespace. -/
def skipWs : List Char → List Char
  | [] => []
  | c :: rest => if isWs c then skipWs rest else c :: rest

/-- Characters that may occur in a JSON number literal. -/
def isNumChar (c : Char) : Bool :=
  c.isDigit || c == '-' || c == '+' || c == '.' || c == 'e' || c == 'E'

/-- Longest leading run of number-literal characters, and the rest. -/
def takeNum : List Char → List Char × List Char
  | [] => ([], [])
  | c :: rest =>
    if isNumChar c then
      let pr := takeNum rest
      (c :: pr.1, pr.2)
    else ([], c :: rest)

/-- Content of a string literal up to its closing quote, and the rest. -/
def takeStr : List Char → Option (List Char × List Char)
  | [] => none
  | c :: rest =>
    if c = '"' then some ([], rest)
    else
      match takeStr rest with
      | some (s, r) => some (c :: s, r)
      | none => none

/-- Require the literal characters `lit` next, returning what follows. -/
def expectLit (lit cs : List Char) : Option (List Char) :=
  if prefixOfAux lit cs then some (cs.drop lit.length) else none

mutual

/-- One JSON value, returning it with the unconsumed remainder.  The fuel
decreases at every recursive step; a successful parse consumes at least
one character per unit of fuel spent, so `length + 1` fuel is enough. -/
def parseVal : Nat → List Char → Option (Json × List Char)
  | 0, _ => none
  | fuel + 1, cs =>
    match skipWs cs with
    | [] => none
    | c :: rest =>
      if c = '"' then
        match takeStr rest with
        | some (s, r) => some (.str (String.mk s), r)
        | none => none
      else if c = '[' then
        match skipWs rest with
        | ']' :: r => some (.arr [], r)
        | r =>
          match parseVal fuel r with
          | some (v, r') =>
            match parseArrRest fuel r' with
            | some (vs, r'') => some (.arr (v :: vs), r'')
            | none => none
          | none => none
      else if c = lbrace then
        match skipWs rest with
        | [] => none
        | c' :: r =>
          if c' = rbrace then some (.obj [], r)
          else
            match parseObjEntry fuel (c' :: r) with
            | some (kv, r') =>
              match parseObjRest fuel r' with
              | some (kvs, r'') => some (.obj (kv :: kvs), r'')
              | none => none
            | none => none
      else if c = 'n' then
        match expectLit ['u', 'l', 'l'] rest with
        | some r => some (.null, r)
        | none => none
      else if c = 't' then
        match expectLit ['r', 'u', 'e'] rest with
        | some r => some (.bool true, r)
        | none => none
      else if c = 'f' then
        match expectLit ['a', 'l', 's', 'e'] rest with
        | some r => some (.bool false, r)
        | none => none
      else if isNumChar c then
        let pr := takeNum (c :: rest)
        some (.num (String.mk pr.1), pr.2)
      else none

/-- Remaining array elements after the first: `, value` repeated, then `]`. -/
def parseArrRest : Nat → List Char → Option (List Json × List Char)
  | 0, _ => none
  | fuel + 1, cs =>
    match skipWs cs with
    | ']' :: r => some ([], r)
    | ',' :: r =>
      match parseVal fuel r with
      | some (v, r') =>
        match parseArrRest fuel r' with
        | some (vs, r'') => some (v :: vs, r'')
        | none => none
      | none => none
    | _ => none

/-- One `"key": value` object entry. -/
def parseObjEntry : Nat → List Char → Option ((String × Json) × List Char)
  | 0, _ => none
  | fuel + 1, cs =>
    match skipWs cs with
    | '"' :: r =>
      match takeStr r with
      | some (k, r') =>
        match skipWs r' with
        | ':' :: r'' =>
          match parseVal fuel r'' with
          | some (v, r3) => some ((String.mk k, v), r3)
          | none => none
        | _ => none
      | none => none
    | _ => none

/-- Remaining object entries after the first: `, entry` repeated, then the
closing brace. -/
def parseObjRest : Nat → List Char → Option (List (String × Json) × List Char)
  | 0, _ => none
  | fuel + 1, cs =>
    match skipWs cs with
    | [] => none
    | c :: r =>
      if c = rbrace then some ([], r)
      else if c = ',' then
        match parseObjEntry fuel r with
        | some (kv, r') =>
          match parseObjRest fuel r' with
          | some (kvs, r'') => some (kv :: kvs, r'')
          | none => none
        | none => none
      else none

end

/-- Parse a whole body as one JSON value (only whitespace may follow). -/
def parseJson (s : String) : Option Json :=
  match parseVal (s.data.length + 1) s.data with
  | some (v, rest) => if (skipWs rest).isEmpty then some v else none
  | none => none

/-! ### The Response Classifier (translated from src) -/

/-- Outcome of fully reading one response body: the content, or the read
error (`ioutil.ReadAll` / the reader inside `goquery`). -/
abbrev BodyRead := Except String String

/-- The part of Go's `*http.Response` the comparator consumes: the status
text and the (single-use) body stream. -/
structure Response where
  status : String
  body : BodyRead

/-- Go `compareJSONs`: read both bodies (a read failure aborts with that
error), have the structural differ parse and compare them (malformed JSON
on either side aborts with an error), render the diff as lines and parse
the lines into fragments. -/
def compareJSONs (aBody bBody : BodyRead) : Except String (List Diff) :=
  match aBody with
  | .error e => .error e
  | .ok aB =>
    match bBody with
    | .error e => .error e
    | .ok bB =>
      match parseJson aB, parseJson bB with
      | some aJSON, some bJSON => .ok (getDiffsFromStrings (diffLines aJSON bJSON))
      | _, _ => .error "invalid JSON input"

/-! ### HTML Extractor (modelled from the spec) -/

/-- Modelled from the spec: a parsed (`goquery`) document, represented by
the text extraction it supports — for each selector, the text contents of
the matching elements in document order.  A selector bound to no entry
(or to an empty element list) matches zero elements. -/
structure HtmlDoc where
  elems : List (String × List String)

/-- Modelled from the spec: `doc.Find(element).Text()` concatenates the
text content of the elements matching the selector; zero matching
elements yield the empty string, never an error. -/
def findText (doc : HtmlDoc) (element : String) : String :=
  String.join ((lookupKey element doc.elems).getD [])

/-- Go `compareHTMLs`: build both documents (a body-read or HTML-parse
failure aborts with that error), then for each selector in order append
the text diff of the two extracted texts.  The external HTML parser is
passed as a parameter, exactly like the fetch outcomes. -/
def compareHTMLs (parseHTML : String → Except String HtmlDoc)
    (aResp bResp : Response) (compareElements : List String) :
    Except String (List Diff) :=
  match aResp.body with
  | .error e => .error e
  | .ok aBody =>
    match parseHTML aBody with
    | .error e => .error e
    | .ok aDoc =>
      match bResp.body with
      | .error e => .error e
      | .ok bBody =>
        match parseHTML bBody with
        | .error e => .error e
        | .ok bDoc =>
          .ok (compareElements.foldl
            (fun result element =>
              result ++ compareStrings (findText aDoc element) (findText bDoc element))
            [])

/-- Go `Compare`: branch on the two fetch outcomes.  One failed side
yields the two-fragment result (trimmed error against status text); two
failed sides yield the text diff of the two trimmed errors; two successes
delegate to `compareJSONs` when `compareElements` is `nil` (`none`) and
to `compareHTMLs` otherwise.  The outer `Option` is `none` exactly when
`trimErrorHost` panics. -/
def Compare (parseHTML : String → Except String HtmlDoc)
    (aRes bRes : Except String Response)
    (compareElements : Option (List String)) :
    Option (Except String (List Diff)) :=
  match aRes, bRes with
  | .error aErr, .ok bResp =>
    match trimErrorHost aErr with
    | some err => some (.ok [⟨err, Delete⟩, ⟨bResp.status, Insert⟩])
    | none => none
  | .ok aResp, .error bErr =>
    match trimErrorHost bErr with
    | some err => some (.ok [⟨aResp.status, Delete⟩, ⟨err, Insert⟩])
    | none => none
  | .error aErr, .error bErr =>
    match trimErrorHost aErr with
    | some aError =>
      match trimErrorHost bErr with
      | some bError => some (.ok (compareStrings aError bError))
      | none => none
    | none => none
  | .ok aResp, .ok bResp =>
    match compareElements with
    | none => some (compareJSONs aResp.body bResp.body)
    | some elems => some (compareHTMLs parseHTML aResp bResp elems)

/-! ### Reference definitions for the claims, and witness fixtures -/

/-- A line that the line parser recognizes: it begins with `+` or `-`. -/
def pmLine (line : String) : Bool :=
  goHasPrefix line "+" || goHasPrefix line "-"

/-- Reference reading of the spec sentence behind C6, for one line: a
line beginning with `+` or `-` keeps its remainder after that one
character, tagged `Insert` for `+` and `Delete` for `-`; any other line
is dropped. -/
def specLineFragment (line : String) : Option Diff :=
  match line.data with
  | [] => none
  | c :: rest =>
    if c = '+' then some ⟨String.mk rest, Insert⟩
    else if c = '-' then some ⟨String.mk rest, Delete⟩
    else none

/-- Reference reading of the spec sentence behind C6: keep exactly the
lines beginning with `+` or `-`, in order; strip one leading character;
tag `+` as `Insert` and `-` as `Delete`. -/
def specLineFragments (lines : List String) : List Diff :=
  lines.filterMap specLineFragment

/-- Reference reading of the claim's trimming contract: the substring
starting at (and including) the last `:`, and the message unchanged when
it has no `:`. -/
def claimTrim (s : String) : String :=
  match lastIdx s.data ':' with
  | some i => String.mk (s.data.drop i)
  | none => s

/-- Swap an insertion with a deletion (and vice versa). -/
def swapKind (d : Diff) : Diff :=
  ⟨d.Text, -d.Type'⟩

/-- A fragment list with its order reversed and every insertion swapped
with a deletion. -/
def reversedSwapped (ds : List Diff) : List Diff :=
  (ds.map swapKind).reverse

/-- A concrete external HTML parser used by the concrete instances: every
body parses, and its text under the selector `"h1"` is the body itself. -/
def sampleParseHTML : String → Except String HtmlDoc :=
  fun body => .ok ⟨[("h1", [body])]⟩

/-! ## Verified properties -/

theorem pm_plus (s : String) : pmLine ("+" ++ s) = true := by
  obtain ⟨cs⟩ := s; rfl

theorem pm_dash (s : String) : pmLine ("-" ++ s) = true := by
  obtain ⟨cs⟩ := s; rfl

theorem pm_space (s : String) : pmLine (" " ++ s) = false := by
  obtain ⟨cs⟩ := s; rfl

theorem getDiffs_nil_of_no_pm :
    ∀ lines : List String, (∀ l ∈ lines, pmLine l = false) →
      getDiffsFromStrings lines = [] := by
  intro lines h
  induction lines with
  | nil => rfl
  | cons line rest ih =>
    have hl := h line (List.mem_cons_self _ _)
    rw [pmLine, Bool.or_eq_false_iff] at hl
    rw [getDiffsFromStrings, hl.1, hl.2]
    simp only [if_false, Bool.false_eq_true]
    exact ih fun l hm => h l (List.mem_cons_of_mem _ hm)

theorem getDiffs_ne_nil :
    ∀ lines : List String, (∃ l ∈ lines, pmLine l = true) →
      getDiffsFromStrings lines ≠ [] := by
  intro lines
  induction lines with
  | nil => rintro ⟨l, hm, _⟩; cases hm
  | cons line rest ih =>
    rintro ⟨l, hm, hpm⟩
    by_cases h1 : goHasPrefix line "+" = true
    · rw [getDiffsFromStrings, h1]; simp
    · by_cases h2 : goHasPrefix line "-" = true
      · rw [getDiffsFromStrings, h2]; simp [h1]
      · rw [getDiffsFromStrings]
        simp only [Bool.not_eq_true] at h1 h2
        rw [h1, h2]
        simp only [if_false, Bool.false_eq_true]
        rcases List.mem_cons.mp hm with rfl | hm'
        · rw [pmLine, h1, h2] at hpm; cases hpm
        · exact ih ⟨l, hm', hpm⟩

/-- C6: the line-to-fragment parser keeps exactly the lines beginning
with `+` or `-`, in their original order, drops every other line, strips
exactly one leading prefix character from each kept line, and tags the
remainder `Insert` for `+` and `Delete` for `-`. -/
theorem getDiffsFromStrings_spec (lines : List String) :
    getDiffsFromStrings lines = specLineFragments lines := by
  induction lines with
  | nil => rfl
  | cons line rest ih =>
    obtain ⟨cs⟩ := line
    cases cs with
    | nil => exact ih
    | cons c cs' =>
      by_cases hp : c = '+'
      · subst hp
        show (⟨⟨cs'⟩, Insert⟩ : Diff) :: getDiffsFromStrings rest =
          (⟨⟨cs'⟩, Insert⟩ : Diff) :: specLineFragments rest
        exact congrArg _ ih
      · by_cases hd : c = '-'
        · subst hd
          show (⟨⟨cs'⟩, Delete⟩ : Diff) :: getDiffsFromStrings rest =
            (⟨⟨cs'⟩, Delete⟩ : Diff) :: specLineFragments rest
          exact congrArg _ ih
        · have hplusf : goHasPrefix ⟨c :: cs'⟩ "+" = false := by
            show (('+' == c) && prefixOfAux [] cs') = false
            rw [beq_eq_false_iff_ne.mpr fun h => hp h.symm]
            rfl
          have hdashf : goHasPrefix ⟨c :: cs'⟩ "-" = false := by
            show (('-' == c) && prefixOfAux [] cs') = false
            rw [beq_eq_false_iff_ne.mpr fun h => hd h.symm]
            rfl
          rw [getDiffsFromStrings, hplusf, hdashf]
          simp only [Bool.false_eq_true, if_false]
          have hnone : specLineFragment ⟨c :: cs'⟩ = none := by
            show (if c = '+' then some (⟨String.mk cs', Insert⟩ : Diff)
              else if c = '-' then some ⟨String.mk cs', Delete⟩ else none) = none
            rw [if_neg hp, if_neg hd]
          have hskip : specLineFragments (⟨c :: cs'⟩ :: rest) = specLineFragments rest :=
            List.filterMap_cons_none hnone
          rw [hskip]
          exact ih

/-! ### Text Diff Engine properties (C7, C8) -/

@[simp] theorem data_mk (l : List Char) : (String.mk l).data = l := rfl

theorem lcsDiff_self (l : List Char) : ∀ fuel, l.length ≤ fuel →
    lcsDiff fuel l l = l.map fun c => (Dop.eq, c) := by
  induction l with
  | nil => intro fuel _; simp [lcsDiff]
  | cons c l' ih =>
    intro fuel h
    cases fuel with
    | zero => exact absurd h (by simp)
    | succ f =>
      have hr := ih f (Nat.le_of_succ_le_succ h)
      simp [lcsDiff, hr]

theorem lcsDiff_right_ext (p : List Char) : ∀ (fuel : Nat) (v : List Char),
    p.length ≤ fuel →
    lcsDiff fuel p (p ++ v) =
      (p.map fun c => (Dop.eq, c)) ++ v.map fun c => (Dop.ins, c) := by
  induction p with
  | nil => intro fuel v _; simp [lcsDiff]
  | cons c p' ih =>
    intro fuel v h
    cases fuel with
    | zero => exact absurd h (by simp)
    | succ f =>
      have hr := ih f v (Nat.le_of_succ_le_succ h)
      simp [lcsDiff, List.append_eq, hr]

theorem lcsDiff_left_ext (p : List Char) : ∀ (fuel : Nat) (u : List Char),
    p.length ≤ fuel →
    lcsDiff fuel (p ++ u) p =
      (p.map fun c => (Dop.eq, c)) ++ u.map fun c => (Dop.del, c) := by
  induction p with
  | nil => intro fuel u _; cases u <;> simp [lcsDiff]
  | cons c p' ih =>
    intro fuel u h
    cases fuel with
    | zero => exact absurd h (by simp)
    | succ f =>
      have hr := ih f u (Nat.le_of_succ_le_succ h)
      simp [lcsDiff, List.append_eq, hr]

theorem toRuns_map_const (op : Dop) (l : List Char) :
    toRuns (l.map fun c => (op, c)) =
      if l = [] then [] else [(op, String.mk l)] := by
  induction l with
  | nil => rfl
  | cons c l' ih =>
    cases l' with
    | nil => rfl
    | cons c2 l'' =>
      rw [if_neg (List.cons_ne_nil c2 l'')] at ih
      simp only [List.map_cons] at ih ⊢
      rw [toRuns, ih]
      simp

theorem toRuns_eq_append (p m : List Char) (op : Dop) (hop : ¬op = Dop.eq)
    (hm : m ≠ []) :
    toRuns ((p.map fun c => (Dop.eq, c)) ++ m.map fun c => (op, c)) =
      (if p = [] then [] else [(Dop.eq, String.mk p)]) ++ [(op, String.mk m)] := by
  have hne : ¬Dop.eq = op := fun h => hop h.symm
  induction p with
  | nil =>
    simp only [List.map_nil, List.nil_append, if_pos rfl]
    rw [toRuns_map_const, if_neg hm]
    rfl
  | cons c p' ih =>
    cases p' with
    | nil =>
      have ih' : toRuns (m.map fun c => (op, c)) = [(op, String.mk m)] := by
        rw [toRuns_map_const, if_neg hm]
      simp only [List.map_cons, List.map_nil, List.nil_append, List.cons_append]
      rw [toRuns, ih']
      simp [hne]
    | cons c2 p'' =>
      rw [if_neg (List.cons_ne_nil c2 p'')] at ih
      simp only [List.map_cons, List.cons_append] at ih ⊢
      rw [toRuns, ih]
      simp

theorem compareStrings_refl (s : String) : compareStrings s s = [] := by
  rw [compareStrings, diffMain, lcsDiff_self s.data _ (by omega), toRuns_map_const]
  by_cases hd : s.data = []
  · rw [if_pos hd]; rfl
  · rw [if_neg hd]; rfl

theorem compareStrings_app_right (a t : String) (ht : t ≠ "") :
    compareStrings a (a ++ t) = [⟨t, Insert⟩] := by
  obtain ⟨ad⟩ := a; obtain ⟨td⟩ := t
  have htd : td ≠ [] := by intro h; subst h; exact ht rfl
  rw [compareStrings, diffMain]
  rw [show ((⟨ad⟩ : String) ++ (⟨td⟩ : String)).data = ad ++ td from rfl]
  rw [show (⟨ad⟩ : String).data = ad from rfl]
  rw [lcsDiff_right_ext ad _ td (by omega)]
  rw [toRuns_eq_append ad td Dop.ins (by simp) htd]
  by_cases had : ad = []
  · subst had; rfl
  · rw [if_neg had]; rfl

theorem compareStrings_app_left (a t : String) (ht : t ≠ "") :
    compareStrings (a ++ t) a = [⟨t, Delete⟩] := by
  obtain ⟨ad⟩ := a; obtain ⟨td⟩ := t
  have htd : td ≠ [] := by intro h; subst h; exact ht rfl
  rw [compareStrings, diffMain]
  rw [show ((⟨ad⟩ : String) ++ (⟨td⟩ : String)).data = ad ++ td from rfl]
  rw [show (⟨ad⟩ : String).data = ad from rfl]
  rw [lcsDiff_left_ext ad _ td (by omega)]
  rw [toRuns_eq_append ad td Dop.del (by simp) htd]
  by_cases had : ad = []
  · subst had; rfl
  · rw [if_neg had]; rfl

/-- C7: the text diff of a string against itself is empty — the edit
script is one all-equal run, and equal fragments are dropped, so no
`Insert` or `Delete` fragment is emitted. -/
theorem compareStrings_self (s : String) : compareStrings s s = [] :=
  compareStrings_refl s

/-- C8 (counterexample): with two separate change regions the claimed
reversed-and-swapped symmetry fails — reversal also reverses the order of
the change regions, while the diff of the swapped inputs keeps document
order. -/
theorem compareStrings_reversal_counterexample :
    reversedSwapped (compareStrings "1x2" "AxB") ≠ compareStrings "AxB" "1x2" := by
  decide

/-- C8 (amended): when one input is a prefix of the other (in particular
when the diff has a single change region at the end), the fragment list
of the swapped comparison is the reversed-and-swapped fragment list of
the original comparison. -/
theorem compareStrings_prefix_reversal (a b : String)
    (h : (∃ t, b = a ++ t) ∨ (∃ t, a = b ++ t)) :
    reversedSwapped (compareStrings a b) = compareStrings b a := by
  rcases h with ⟨t, rfl⟩ | ⟨t, rfl⟩
  · by_cases ht : t = ""
    · subst ht
      rw [show a ++ "" = a from String.ext (by simp [String.data_append])]
      rw [compareStrings_refl]; rfl
    · rw [compareStrings_app_right a t ht, compareStrings_app_left a t ht]; rfl
  · by_cases ht : t = ""
    · subst ht
      rw [show b ++ "" = b from String.ext (by simp [String.data_append])]
      rw [compareStrings_refl]; rfl
    · rw [compareStrings_app_left b t ht, compareStrings_app_right b t ht]; rfl

/-- C8 (witness): the amended symmetry at the concrete pair
`"ab"`/`"abc"`. -/
theorem compareStrings_prefix_reversal_witness :
    reversedSwapped (compareStrings "ab" "abc") = compareStrings "abc" "ab" :=
  compareStrings_prefix_reversal "ab" "abc" (Or.inl ⟨"c", rfl⟩)

/-! ### Error-trimming and Response Classifier properties (C2, C1, C3) -/

theorem lastIdx_eq_none (cs : List Char) (c : Char) :
    lastIdx cs c = none ↔ c ∉ cs := by
  induction cs with
  | nil => simp [lastIdx]
  | cons x xs ih =>
    constructor
    · intro h hmem
      rw [lastIdx] at h
      cases hx : lastIdx xs c with
      | some i => rw [hx] at h; cases h
      | none =>
        rw [hx] at h
        by_cases hxc : x = c
        · rw [if_pos hxc] at h; cases h
        · rcases List.mem_cons.mp hmem with rfl | hm
          · exact hxc rfl
          · exact ih.mp hx hm
    · intro hnm
      rw [lastIdx]
      have hx : lastIdx xs c = none :=
        ih.mpr fun hm => hnm (List.mem_cons_of_mem _ hm)
      rw [hx, if_neg fun (h : x = c) =>
        hnm (by rw [← h]; exact List.mem_cons_self _ _)]

/-- C2 (amended): for a message containing `:`, `trimErrorHost` returns
the substring starting at (and including) the last `:` — the claim's
reference trimming; for a message with no `:`, Go's `strings.LastIndex`
yields `-1` and the slice `errText[-1:]` panics (modelled `none`), so the
function is not total and does not fall back to the unchanged message. -/
theorem trimErrorHost_spec (s : String) :
    ((':') ∈ s.data → trimErrorHost s = some (claimTrim s)) ∧
    ((':') ∉ s.data → trimErrorHost s = none) := by
  constructor
  · intro hmem
    cases h : lastIdx s.data ':' with
    | some i => simp [trimErrorHost, claimTrim, h]
    | none => exact absurd hmem ((lastIdx_eq_none _ _).mp h)
  · intro hmem
    have h : lastIdx s.data ':' = none := (lastIdx_eq_none _ _).mpr hmem
    simp [trimErrorHost, h]

/-- C2 (witness): the spec's own example — trimming
`"dial tcp 127.0.0.1:80: connection refused"` yields
`": connection refused"`. -/
theorem trimErrorHost_spec_witness :
    (':') ∈ ("dial tcp 127.0.0.1:80: connection refused" : String).data ∧
    trimErrorHost "dial tcp 127.0.0.1:80: connection refused" =
      some ": connection refused" := by
  refine ⟨by decide, ?_⟩
  rw [(trimErrorHost_spec _).1 (by decide)]
  rfl

/-- C2 (counterexample): on a message with no `:` the code panics
(modelled `none`) instead of returning the message unchanged as the claim
states. -/
theorem trimErrorHost_counterexample :
    trimErrorHost "connection refused" = none ∧
    claimTrim "connection refused" = "connection refused" :=
  ⟨rfl, rfl⟩

/-- C1 (amended): when exactly one fetch fails and the failing side's
error message contains a `:` (so that the trimming slice succeeds; Go's
`http.Get` error strings always do), `Compare` returns exactly two
fragments and a nil error: the trimmed error message of the failing side
— a `Delete` when side A failed, an `Insert` when side B failed — and
the raw status text of the succeeding side with the opposite kind. -/
theorem compare_one_failure (parseHTML : String → Except String HtmlDoc)
    (failMsg t : String) (okResp : Response) (elems : Option (List String))
    (h : trimErrorHost failMsg = some t) :
    Compare parseHTML (.error failMsg) (.ok okResp) elems =
      some (.ok [⟨t, Delete⟩, ⟨okResp.status, Insert⟩]) ∧
    Compare parseHTML (.ok okResp) (.error failMsg) elems =
      some (.ok [⟨okResp.status, Delete⟩, ⟨t, Insert⟩]) := by
  constructor <;> simp [Compare, h]

/-- C1 (witness): a connection-refused error against a `200 OK` response,
on either side. -/
theorem compare_one_failure_witness :
    Compare sampleParseHTML (.error "dial tcp 10.0.0.1:80: connection refused")
        (.ok ⟨"200 OK", .ok "\x7b\x7d"⟩) none =
      some (.ok [⟨": connection refused", Delete⟩, ⟨"200 OK", Insert⟩]) ∧
    Compare sampleParseHTML (.ok ⟨"200 OK", .ok "\x7b\x7d"⟩)
        (.error "dial tcp 10.0.0.1:80: connection refused") none =
      some (.ok [⟨"200 OK", Delete⟩, ⟨": connection refused", Insert⟩]) :=
  compare_one_failure sampleParseHTML "dial tcp 10.0.0.1:80: connection refused"
    ": connection refused" ⟨"200 OK", .ok "\x7b\x7d"⟩ none rfl

/-- C1 (counterexample): with a colon-free error message on the failing
side the claim's predicted two-fragment result is not returned — the
trimming slice panics (modelled `none`). -/
theorem compare_one_failure_counterexample :
    Compare sampleParseHTML (.error "remote unreachable")
        (.ok ⟨"200 OK", .ok ""⟩) none = none ∧
    Compare sampleParseHTML (.error "remote unreachable")
        (.ok ⟨"200 OK", .ok ""⟩) none ≠
      some (.ok [⟨"remote unreachable", Delete⟩, ⟨"200 OK", Insert⟩]) :=
  ⟨rfl, fun h => Option.noConfusion h⟩

/-- C3 (amended): when both fetches fail and both error messages contain
a `:` (so that both trimming slices succeed), `Compare` returns a nil
error together with the Text Diff Engine's full output on the two
trimmed error messages — no two-fragment shortcut. -/
theorem compare_both_failures (parseHTML : String → Except String HtmlDoc)
    (aErr bErr ta tb : String) (elems : Option (List String))
    (ha : trimErrorHost aErr = some ta) (hb : trimErrorHost bErr = some tb) :
    Compare parseHTML (.error aErr) (.error bErr) elems =
      some (.ok (compareStrings ta tb)) := by
  simp [Compare, ha, hb]

/-- C3 (witness): two failing fetches with distinct trimmed messages. -/
theorem compare_both_failures_witness :
    Compare sampleParseHTML (.error "a:x") (.error "b:y") none =
      some (.ok (compareStrings ":x" ":y")) :=
  compare_both_failures sampleParseHTML "a:x" "b:y" ":x" ":y" none rfl rfl

/-- C3 (counterexample): with colon-free error messages on both failing
sides the code panics (modelled `none`) instead of returning the text
diff of the two messages. -/
theorem compare_both_failures_counterexample :
    Compare sampleParseHTML (.error "no route") (.error "refused") none = none ∧
    Compare sampleParseHTML (.error "no route") (.error "refused") none ≠
      some (.ok (compareStrings "no route" "refused")) :=
  ⟨rfl, fun h => Option.noConfusion h⟩

/-! ### Structural-diff error handling (C4) and HTML path (C9, C10) -/

/-- C4: a failed body read on either side, or malformed JSON on either
side, makes the JSON comparison return an error carrying no fragment list
(the Go pair is `(nil, err)`); the model is total, so there is no crash,
and a bad input never produces an `ok` result, empty or otherwise. -/
theorem compareJSONs_error_on_bad_input (aBody bBody : BodyRead)
    (h : (∃ e, aBody = .error e) ∨ (∃ e, bBody = .error e) ∨
      (∃ s, aBody = .ok s ∧ parseJson s = none) ∨
      (∃ s, bBody = .ok s ∧ parseJson s = none)) :
    ∃ e, compareJSONs aBody bBody = .error e := by
  rcases h with ⟨e, rfl⟩ | ⟨e, rfl⟩ | ⟨s, rfl, hp⟩ | ⟨s, rfl, hp⟩
  · exact ⟨e, rfl⟩
  · cases aBody with
    | error e' => exact ⟨e', rfl⟩
    | ok sa => exact ⟨e, rfl⟩
  · cases bBody with
    | error e' => exact ⟨e', rfl⟩
    | ok sb =>
      refine ⟨"invalid JSON input", ?_⟩
      cases hq : parseJson sb <;> simp [compareJSONs, hp, hq]
  · cases aBody with
    | error e' => exact ⟨e', rfl⟩
    | ok sa =>
      refine ⟨"invalid JSON input", ?_⟩
      cases hq : parseJson sa <;> simp [compareJSONs, hp, hq]

/-- C4 (witness): a malformed side A against a well-formed side B. -/
theorem compareJSONs_error_witness :
    parseJson "not json" = none ∧
    ∃ e, compareJSONs (.ok "not json") (.ok "1") = .error e :=
  ⟨rfl, compareJSONs_error_on_bad_input _ _
    (Or.inr (Or.inr (Or.inl ⟨"not json", rfl, rfl⟩)))⟩

/-- C9: a selector matching zero elements yields the empty extracted
string rather than an error; the text diff for that selector then runs
against the empty text; and a selector matching zero elements on both
sides contributes an empty fragment sequence. -/
theorem compareHTMLs_zero_match :
    (∀ (doc : HtmlDoc) (element : String),
      lookupKey element doc.elems = none → findText doc element = "") ∧
    (∀ (parseHTML : String → Except String HtmlDoc) (aResp bResp : Response)
        (aBody bBody : String) (aDoc bDoc : HtmlDoc) (element : String),
      aResp.body = .ok aBody → bResp.body = .ok bBody →
      parseHTML aBody = .ok aDoc → parseHTML bBody = .ok bDoc →
      lookupKey element aDoc.elems = none →
      compareHTMLs parseHTML aResp bResp [element] =
        .ok (compareStrings "" (findText bDoc element)) ∧
      (lookupKey element bDoc.elems = none →
        compareHTMLs parseHTML aResp bResp [element] = .ok [])) := by
  have hempty : ∀ (doc : HtmlDoc) (element : String),
      lookupKey element doc.elems = none → findText doc element = "" := by
    intro doc element h
    rw [findText, h]
    rfl
  refine ⟨hempty, ?_⟩
  intro parseHTML aResp bResp aBody bBody aDoc bDoc element ha hb hpa hpb hza
  have h1 : compareHTMLs parseHTML aResp bResp [element] =
      .ok (compareStrings (findText aDoc element) (findText bDoc element)) := by
    simp [compareHTMLs, ha, hb, hpa, hpb]
  rw [h1, hempty aDoc element hza]
  refine ⟨rfl, fun hzb => ?_⟩
  rw [hempty bDoc element hzb, compareStrings_refl]

/-- C9 (witness): the selector `"h2"` matches nothing on either side. -/
theorem compareHTMLs_zero_match_witness :
    lookupKey "h2" (HtmlDoc.mk [("h1", ["x"])]).elems = none ∧
    compareHTMLs sampleParseHTML ⟨"200 OK", .ok "x"⟩ ⟨"200 OK", .ok "y"⟩ ["h2"] =
      .ok [] := by
  refine ⟨rfl, ?_⟩
  exact (compareHTMLs_zero_match.2 sampleParseHTML ⟨"200 OK", .ok "x"⟩
    ⟨"200 OK", .ok "y"⟩ "x" "y" ⟨[("h1", ["x"])]⟩ ⟨[("h1", ["y"])]⟩ "h2"
    rfl rfl rfl rfl rfl).2 rfl

/-- C10: with two successful fetches, `Compare` takes the JSON path
exactly when the selector list is `nil` (`none`), handing both body
streams to `compareJSONs`; any non-nil list — the empty list included —
takes the HTML path, whose per-selector loop runs zero times for the
empty list, so once both bodies read and parse as HTML the result is
`ok []`: no fragments, no error, and the bodies are never compared as
JSON. -/
theorem compare_selector_dispatch (parseHTML : String → Except String HtmlDoc)
    (aResp bResp : Response) :
    Compare parseHTML (.ok aResp) (.ok bResp) none =
      some (compareJSONs aResp.body bResp.body) ∧
    (∀ elems : List String,
      Compare parseHTML (.ok aResp) (.ok bResp) (some elems) =
        some (compareHTMLs parseHTML aResp bResp elems)) ∧
    (∀ (aBody bBody : String) (aDoc bDoc : HtmlDoc),
      aResp.body = .ok aBody → bResp.body = .ok bBody →
      parseHTML aBody = .ok aDoc → parseHTML bBody = .ok bDoc →
      Compare parseHTML (.ok aResp) (.ok bResp) (some []) = some (.ok [])) := by
  refine ⟨rfl, fun elems => rfl, ?_⟩
  intro aBody bBody aDoc bDoc ha hb hpa hpb
  show some (compareHTMLs parseHTML aResp bResp []) = some (.ok [])
  simp [compareHTMLs, ha, hb, hpa, hpb]

/-- C10 (witness): a non-nil empty selector list on two successful HTML
responses yields `ok []` without touching the bodies as JSON. -/
theorem compare_selector_dispatch_witness :
    Compare sampleParseHTML (.ok ⟨"200 OK", .ok "<p>x</p>"⟩)
      (.ok ⟨"200 OK", .ok "<p>y</p>"⟩) (some []) = some (.ok []) :=
  (compare_selector_dispatch sampleParseHTML ⟨"200 OK", .ok "<p>x</p>"⟩
    ⟨"200 OK", .ok "<p>y</p>"⟩).2.2 "<p>x</p>" "<p>y</p>"
    ⟨[("h1", ["<p>x</p>"])]⟩ ⟨[("h1", ["<p>y</p>"])]⟩ rfl rfl rfl rfl

/-! ### Structural diff of equal and unequal documents (C5) -/

theorem lookupKey_isSome_of_mem {α : Type} {k : String} {v : α} :
    ∀ {l : List (String × α)}, (k, v) ∈ l → (lookupKey k l).isSome = true := by
  intro l h
  induction l with
  | nil => cases h
  | cons kv rest ih =>
    obtain ⟨k', v'⟩ := kv
    rw [lookupKey]
    by_cases hk : k' = k
    · rw [if_pos hk]; rfl
    · rw [if_neg hk]
      rcases List.mem_cons.mp h with heq | hm
      · exact absurd (congrArg Prod.fst heq).symm hk
      · exact ih hm

theorem lookup_self_of_nodup {k : String} {v : Json} :
    ∀ {l : List (String × Json)}, nodupKeys l = true → (k, v) ∈ l →
      lookupKey k l = some v := by
  intro l hn hm
  induction l with
  | nil => cases hm
  | cons kv rest ih =>
    obtain ⟨k', v'⟩ := kv
    have hn' : (lookupKey k' rest).isNone = true ∧ nodupKeys rest = true := by
      simpa [nodupKeys, Bool.and_eq_true] using hn
    rw [lookupKey]
    rcases List.mem_cons.mp hm with heq | hrest
    · have hk : k' = k := (congrArg Prod.fst heq).symm
      have hv : v' = v := (congrArg Prod.snd heq).symm
      rw [if_pos hk, hv]
    · by_cases hk : k' = k
      · subst hk
        have hs := lookupKey_isSome_of_mem hrest
        rw [Option.isNone_iff_eq_none.mp hn'.1] at hs
        cases hs
      · rw [if_neg hk]
        exact ih hn'.2 hrest

theorem keysSub_self {α : Type} (l : List (String × α)) : keysSub l l = true := by
  rw [keysSub, List.all_eq_true]
  intro kv hm
  obtain ⟨k, v⟩ := kv
  exact lookupKey_isSome_of_mem hm

mutual

theorem structEq_refl : ∀ a : Json, wellFormed a = true → structEq a a = true
  | .null, _ => rfl
  | .bool b, _ => by simp [structEq]
  | .num n, _ => by simp [structEq]
  | .str s, _ => by simp [structEq]
  | .arr xs, h => structEqArr_refl xs h
  | .obj kvs, h => by
    have h' : nodupKeys kvs = true ∧ wellFormedObj kvs = true := by
      simpa [wellFormed, Bool.and_eq_true] using h
    show (structEqObj kvs kvs && keysSub kvs kvs) = true
    rw [Bool.and_eq_true]
    exact ⟨structEqObj_of_lookup kvs kvs h'.2
        fun k v hm => lookup_self_of_nodup h'.1 hm,
      keysSub_self kvs⟩

theorem structEqArr_refl : ∀ xs : List Json, wellFormedArr xs = true →
    structEqArr xs xs = true
  | [], _ => rfl
  | x :: xs, h => by
    have h' : wellFormed x = true ∧ wellFormedArr xs = true := by
      simpa [wellFormedArr, Bool.and_eq_true] using h
    show (structEq x x && structEqArr xs xs) = true
    rw [Bool.and_eq_true]
    exact ⟨structEq_refl x h'.1, structEqArr_refl xs h'.2⟩

theorem structEqObj_of_lookup : ∀ (kvs ys : List (String × Json)),
    wellFormedObj kvs = true →
    (∀ k v, (k, v) ∈ kvs → lookupKey k ys = some v) → structEqObj kvs ys = true
  | [], _, _, _ => rfl
  | (k, v) :: kvs, ys, h, hl => by
    have h' : wellFormed v = true ∧ wellFormedObj kvs = true := by
      simpa [wellFormedObj, Bool.and_eq_true] using h
    have hk : lookupKey k ys = some v := hl k v (List.mem_cons_self _ _)
    show ((match lookupKey k ys with
      | some w => structEq v w
      | none => false) && structEqObj kvs ys) = true
    rw [hk, Bool.and_eq_true]
    exact ⟨structEq_refl v h'.1,
      structEqObj_of_lookup kvs ys h'.2
        fun k' v' hm => hl k' v' (List.mem_cons_of_mem _ hm)⟩

end

theorem addedKeys_of_not_keysSub {ys xs : List (String × Json)}
    (h : keysSub ys xs = false) :
    ∃ line ∈ addedKeys ys xs, pmLine line = true := by
  rw [keysSub] at h
  obtain ⟨kv, hmem, hp⟩ : ∃ kv ∈ ys, ¬((lookupKey kv.1 xs).isSome = true) := by
    by_contra hc
    push_neg at hc
    rw [List.all_eq_true.mpr hc] at h
    cases h
  refine ⟨"+" ++ ("\"" ++ kv.1 ++ "\": " ++ serJson kv.2), ?_, pm_plus _⟩
  rw [addedKeys]
  exact List.mem_filterMap.mpr ⟨kv, hmem, by rw [if_neg hp]⟩

/-- The fallthrough rendering of two unequal documents always contains a
prefixed line. -/
theorem fallthrough_pm {a b : Json}
    (hd : diffLines a b = ["-" ++ serJson a, "+" ++ serJson b]) :
    ∃ line ∈ diffLines a b, pmLine line = true := by
  rw [hd]
  exact ⟨_, List.mem_cons_self _ _, pm_dash _⟩

/-- Documents that are `structEq` render as a single context line. -/
theorem diffLines_ctx (a b : Json) (h : structEq a b = true) :
    diffLines a b = [" " ++ serJson a] := by
  cases a <;> cases b <;> simp [diffLines, h]

mutual

theorem diffLines_pm : ∀ a b : Json, wellFormed a = true → structEq a b = false →
    ∃ line ∈ diffLines a b, pmLine line = true
  | a, b, hwf, hne => by
    cases a with
    | null =>
      cases b with
      | null => exact Bool.noConfusion hne
      | bool w => exact fallthrough_pm rfl
      | num m => exact fallthrough_pm rfl
      | str t => exact fallthrough_pm rfl
      | arr ys => exact fallthrough_pm rfl
      | obj ys => exact fallthrough_pm rfl
    | bool v =>
      cases b with
      | bool w =>
        exact fallthrough_pm (by
          simp only [diffLines, hne, Bool.false_eq_true, if_false])
      | null => exact fallthrough_pm rfl
      | num m => exact fallthrough_pm rfl
      | str t => exact fallthrough_pm rfl
      | arr ys => exact fallthrough_pm rfl
      | obj ys => exact fallthrough_pm rfl
    | num n =>
      cases b with
      | num m =>
        exact fallthrough_pm (by
          simp only [diffLines, hne, Bool.false_eq_true, if_false])
      | null => exact fallthrough_pm rfl
      | bool w => exact fallthrough_pm rfl
      | str t => exact fallthrough_pm rfl
      | arr ys => exact fallthrough_pm rfl
      | obj ys => exact fallthrough_pm rfl
    | str u =>
      cases b with
      | str t =>
        exact fallthrough_pm (by
          simp only [diffLines, hne, Bool.false_eq_true, if_false])
      | null => exact fallthrough_pm rfl
      | bool w => exact fallthrough_pm rfl
      | num m => exact fallthrough_pm rfl
      | arr ys => exact fallthrough_pm rfl
      | obj ys => exact fallthrough_pm rfl
    | arr xs =>
      cases b with
      | arr ys =>
        have hd : diffLines (Json.arr xs) (Json.arr ys) = diffArr xs ys := by
          simp only [diffLines, hne, Bool.false_eq_true, if_false]
        rw [hd]
        exact diffArr_pm xs ys hwf hne
      | null => exact fallthrough_pm rfl
      | bool w => exact fallthrough_pm rfl
      | num m => exact fallthrough_pm rfl
      | str t => exact fallthrough_pm rfl
      | obj ys => exact fallthrough_pm rfl
    | obj xs =>
      cases b with
      | obj ys =>
        have hd : diffLines (Json.obj xs) (Json.obj ys) =
            diffObj xs ys ++ addedKeys ys xs := by
          simp only [diffLines, hne, Bool.false_eq_true, if_false]
        rw [hd]
        have hne' : structEqObj xs ys = false ∨ keysSub ys xs = false :=
          Bool.and_eq_false_iff.mp hne
        have hwf' : nodupKeys xs = true ∧ wellFormedObj xs = true := by
          simpa [wellFormed, Bool.and_eq_true] using hwf
        rcases hne' with h | h
        · obtain ⟨line, hm, hpm⟩ := diffObj_pm xs ys hwf'.2 h
          exact ⟨line, List.mem_append_left _ hm, hpm⟩
        · obtain ⟨line, hm, hpm⟩ := addedKeys_of_not_keysSub h
          exact ⟨line, List.mem_append_right _ hm, hpm⟩
      | null => exact fallthrough_pm rfl
      | bool w => exact fallthrough_pm rfl
      | num m => exact fallthrough_pm rfl
      | str t => exact fallthrough_pm rfl
      | arr ys => exact fallthrough_pm rfl

theorem diffArr_pm : ∀ xs ys : List Json, wellFormedArr xs = true →
    structEqArr xs ys = false → ∃ line ∈ diffArr xs ys, pmLine line = true
  | [], [], _, hne => by cases hne
  | [], y :: ys, _, _ => ⟨_, List.mem_cons_self _ _, pm_plus _⟩
  | x :: xs, [], _, _ => ⟨_, List.mem_cons_self _ _, pm_dash _⟩
  | x :: xs, y :: ys, hwf, hne => by
    have hw : wellFormed x = true ∧ wellFormedArr xs = true := by
      simpa [wellFormedArr, Bool.and_eq_true] using hwf
    rcases Bool.and_eq_false_iff.mp hne with h | h
    · obtain ⟨line, hm, hpm⟩ := diffLines_pm x y hw.1 h
      exact ⟨line, List.mem_append_left _ hm, hpm⟩
    · obtain ⟨line, hm, hpm⟩ := diffArr_pm xs ys hw.2 h
      exact ⟨line, List.mem_append_right _ hm, hpm⟩

theorem diffObj_pm : ∀ (kvs ys : List (String × Json)), wellFormedObj kvs = true →
    structEqObj kvs ys = false → ∃ line ∈ diffObj kvs ys, pmLine line = true
  | [], _, _, hne => by cases hne
  | (k, v) :: kvs, ys, hwf, hne => by
    have hw : wellFormed v = true ∧ wellFormedObj kvs = true := by
      simpa [wellFormedObj, Bool.and_eq_true] using hwf
    cases hl : lookupKey k ys with
    | none =>
      simp only [diffObj, hl]
      exact ⟨_, List.mem_append_left _ (List.mem_cons_self _ _), pm_dash _⟩
    | some w =>
      have hne' : structEq v w = false ∨ structEqObj kvs ys = false := by
        have hb : ((match lookupKey k ys with
          | some w => structEq v w
          | none => false) && structEqObj kvs ys) = false := hne
        rw [hl] at hb
        exact Bool.and_eq_false_iff.mp hb
      simp only [diffObj, hl]
      rcases hne' with h | h
      · obtain ⟨line, hm, hpm⟩ := diffLines_pm v w hw.1 h
        exact ⟨line, List.mem_append_left _ hm, hpm⟩
      · obtain ⟨line, hm, hpm⟩ := diffObj_pm kvs ys hw.2 h
        exact ⟨line, List.mem_append_right _ hm, hpm⟩

end

/-- C5: comparing a valid JSON body (unique object keys at every level)
with itself yields `ok []`, and comparing two valid JSON bodies whose
values differ structurally — in the differ's map-like sense (`structEq`)
— yields a non-empty fragment list together with a nil error. -/
theorem compareJSONs_structural :
    (∀ (s : String) (v : Json), parseJson s = some v → wellFormed v = true →
      compareJSONs (.ok s) (.ok s) = .ok []) ∧
    (∀ (sa sb : String) (va vb : Json), parseJson sa = some va →
      parseJson sb = some vb → wellFormed va = true → structEq va vb = false →
      ∃ ds, compareJSONs (.ok sa) (.ok sb) = .ok ds ∧ ds ≠ []) := by
  constructor
  · intro s v hp hwf
    have h1 : compareJSONs (.ok s) (.ok s) =
        .ok (getDiffsFromStrings (diffLines v v)) := by
      simp [compareJSONs, hp]
    have h2 : diffLines v v = [" " ++ serJson v] :=
      diffLines_ctx v v (structEq_refl v hwf)
    have h3 : getDiffsFromStrings [" " ++ serJson v] = [] := by
      apply getDiffs_nil_of_no_pm
      intro l hm
      rw [List.mem_singleton.mp hm]
      exact pm_space _
    rw [h1, h2, h3]
  · intro sa sb va vb hpa hpb hwf hne
    refine ⟨getDiffsFromStrings (diffLines va vb), ?_, ?_⟩
    · simp [compareJSONs, hpa, hpb]
    · exact getDiffs_ne_nil _ (diffLines_pm va vb hwf hne)

/-- C5 (witness): the object `{"a":1}` against itself is empty, and
against `{"a":2}` is non-empty. -/
theorem compareJSONs_structural_witness :
    (parseJson "\x7b\"a\":1\x7d" = some (.obj [("a", .num "1")]) ∧
      wellFormed (.obj [("a", .num "1")]) = true ∧
      compareJSONs (.ok "\x7b\"a\":1\x7d") (.ok "\x7b\"a\":1\x7d") = .ok []) ∧
    (structEq (.obj [("a", .num "1")]) (.obj [("a", .num "2")]) = false ∧
      ∃ ds, compareJSONs (.ok "\x7b\"a\":1\x7d") (.ok "\x7b\"a\":2\x7d") = .ok ds ∧
        ds ≠ []) := by
  refine ⟨⟨rfl, rfl, ?_⟩, ⟨rfl, ?_⟩⟩
  · exact compareJSONs_structural.1 _ _ rfl rfl
  · exact compareJSONs_structural.2 "\x7b\"a\":1\x7d" "\x7b\"a\":2\x7d" _ _
      rfl rfl rfl rfl

end Comparator
